import Mathlib

/-!
Verification of the hash-join common routines
(`src/query/service/src/pipelines/processors/transforms/hash_join/common.rs`)
against their natural-language specification.

The Rust routines are shallowly embedded as executable Lean definitions.
Machine bitmaps become `List Bool`, columnar data becomes an inductive
`Column` type, and the shared mutable maps of the join descriptor become
explicit state passed in and returned.  Supporting library types that the
routines use (`MarkerKind`, `RowPtr`, the column variants, the validity
combinators) are not part of the translated file; they are modelled from
the specification, as marked on each such definition.
-/

/-- Three-valued match marker, from the join descriptor module
(`MarkerKind` with variants `True` / `False` / `Null`). -/
inductive MarkerKind where
  | True
  | False
  | Null
deriving DecidableEq, Repr

/-- Join type of the current plan; only the variants the translated file
inspects are distinguished, the rest are collapsed into representative
constructors. -/
inductive JoinType where
  | Inner
  | Left
  | Right
  | Full
  | Semi
  | Anti
  | Mark
deriving DecidableEq, Repr

/-- Modelled from the spec: a row locator `{chunk_index, row_index, marker}`
addressing a build-side row, where `marker` is a transient tag that does not
take part in equality or hashing for set membership. -/
structure RowPtr where
  chunk_index : Nat
  row_index : Nat
  marker : Option MarkerKind
deriving DecidableEq, Repr

/-- Modelled from the spec: locator identity for set membership is defined
over `{chunk_index, row_index}` only, ignoring the transient marker. -/
def RowPtr.sameRow (a : RowPtr) (ci ri : Nat) : Bool :=
  a.chunk_index == ci && a.row_index == ri

/-- Modelled from the spec: the column data model.  `Column` is a closed sum
of the variants the join code distinguishes: a fully-null column (`null`),
a boolean column carrying its values bitmap (`boolean`), any other plain
column (`plain`, values abstracted as naturals), a constant column wrapping
one logical value (`constCol`), and a nullable column wrapping an inner
column plus an optional presence bitmap (`nullable`, absence of the bitmap
meaning all-present). -/
inductive Column where
  | null (len : Nat)
  | boolean (values : List Bool)
  | plain (values : List Nat)
  | constCol (inner : Column) (len : Nat)
  | nullable (inner : Column) (validity : Option (List Bool))
deriving DecidableEq, Repr

/-- Modelled from the spec: length of a column.  A nullable column has the
length of its inner column; a constant column has its recorded length. -/
def Column.len : Column → Nat
  | Column.null n => n
  | Column.boolean vs => vs.length
  | Column.plain vs => vs.length
  | Column.constCol _ n => n
  | Column.nullable inner _ => inner.len

/-- Modelled from the spec: `is_null`, true for the fully-null column. -/
def Column.is_null : Column → Bool
  | Column.null _ => true
  | _ => false

/-- Modelled from the spec: `is_const`, true for constant columns. -/
def Column.is_const : Column → Bool
  | Column.constCol _ _ => true
  | _ => false

/-- Modelled from the spec: `is_nullable`, true for nullable columns. -/
def Column.is_nullable : Column → Bool
  | Column.nullable _ _ => true
  | _ => false

/-- Modelled from the spec: `ensure_validity` of a nullable column — its
presence bitmap if present, otherwise an all-present bitmap of the inner
column length (absence of a bitmap means all rows present). -/
def ensureValidity (inner : Column) (validity : Option (List Bool)) : List Bool :=
  match validity with
  | some v => v
  | none => List.replicate inner.len true

/-- Modelled from the spec: `Column::validity()`, returning the pair
`(is_all_null, optional presence bitmap)`.  The fully-null column reports
`(true, none)`; a nullable column reports `(false, some bitmap)`; all other
variants report `(false, none)`. -/
def Column.validityInfo : Column → Bool × Option (List Bool)
  | Column.null _ => (true, none)
  | Column.nullable inner v => (false, some (ensureValidity inner v))
  | _ => (false, none)

/-- Modelled from the spec: `combine_validities_3` — bitwise AND of optional
presence bitmaps, absence treated as all-true, returning `none` only when
both inputs are `none`. -/
def combine_validities_3 (lhs rhs : Option (List Bool)) : Option (List Bool) :=
  match lhs, rhs with
  | some a, some b => some (List.zipWith (· && ·) a b)
  | some a, none => some a
  | none, some b => some b
  | none, none => none

/-- Modelled from the spec: data types, as far as the translated file
mentions them (the mark column is typed nullable boolean). -/
inductive DataTypeKind where
  | Boolean
  | Nullable (inner : DataTypeKind)
  | Other (tag : Nat)
deriving DecidableEq, Repr

/-- Modelled from the spec: a named, typed schema field. -/
structure DataField where
  name : String
  data_type : DataTypeKind
deriving DecidableEq, Repr

/-- Modelled from the spec: a batch — an ordered sequence of named, typed
columns sharing a row count. -/
structure DataBlock where
  schema : List DataField
  columns : List Column
deriving DecidableEq, Repr

/-- Modelled from the spec: `DataBlock::add_column` appends one column and
its schema field after the existing columns, preserving original order. -/
def DataBlock.add_column (b : DataBlock) (col : Column) (f : DataField) : DataBlock :=
  { schema := b.schema ++ [f], columns := b.columns ++ [col] }

/-- Mark-join descriptor: the configured mark output column index. -/
structure MarkerJoinDesc where
  marker_index : Option Nat
deriving DecidableEq, Repr

/-- Right/full-join shared state: the matched build-row locator list and the
row match-count map (embedded as an association list looked up by
`{chunk_index, row_index}` identity). -/
structure RightJoinDesc where
  build_indexes : List RowPtr
  row_state : List (RowPtr × Nat)
deriving DecidableEq, Repr

/-- Join descriptor: join type plus the mark-join and right-join state. -/
structure HashJoinDesc where
  join_type : JoinType
  marker_join_desc : MarkerJoinDesc
  right_join_desc : RightJoinDesc
deriving DecidableEq, Repr

/-- Row Space: the chunked build-side storage; for the finalizer only each
chunk's row count matters. -/
structure RowSpace where
  chunks : List Nat
deriving DecidableEq, Repr

/-- The join operator state threaded through the translated methods. -/
structure JoinHashTable where
  hash_join_desc : HashJoinDesc
  row_space : RowSpace
deriving DecidableEq, Repr

/-! ## Translated routines from `hash_join/common.rs` -/

/-- `JoinHashTable::merge_eq_block`: clone the probe block and append every
build column together with its schema field onto it. -/
def merge_eq_block (build_block probe_block : DataBlock) : DataBlock :=
  (build_block.columns.zip build_block.schema).foldl
    (fun acc cf => acc.add_column cf.1 cf.2) probe_block

/-- `JoinHashTable::probe_key`: consult the hash index only when the key
validity bitmap is absent or set at position `i`; otherwise report no match.
The hash index is embedded as an association list with first-match lookup
(`find_key`). -/
def probe_key (hash_table : List (Nat × List RowPtr)) (key : Nat)
    (valids : Option (List Bool)) (i : Nat) : Option (List RowPtr) :=
  if (match valids with
      | some v => v.getD i false
      | none => true) then
    (hash_table.find? (fun e => e.1 == key)).map (fun e => e.2)
  else
    none

/-- `JoinHashTable::set_validity`: rewrap a column with a new presence
bitmap, intersecting with any pre-existing presence information.  The Rust
function can panic (unsigned-subtraction underflow when the new validity is
shorter than an existing bitmap, bitmap slicing of an empty validity for a
constant column); a panic is embedded as `none`, a normal `Ok` return as
`some`. -/
def set_validity : Column → List Bool → Option Column
  | Column.null n, _ => some (Column.null n)
  | Column.constCol inner len, validity =>
    if validity.length < 1 then none
    else
      match set_validity inner (validity.take 1) with
      | some newInner => some (Column.constCol newInner len)
      | none => none
  | Column.nullable inner ev, validity =>
    let existing := ensureValidity inner ev
    if validity.length < existing.length then none
    else
      some (Column.nullable inner
        (some (List.zipWith (· && ·) validity existing ++
          List.replicate (validity.length - existing.length) false)))
  | Column.boolean vs, validity =>
    some (Column.nullable (Column.boolean vs) (some validity))
  | Column.plain vs, validity =>
    some (Column.nullable (Column.plain vs) (some validity))

/-- Validity-accumulation loop of `JoinHashTable::init_markers`: walk the
key columns; skip a column reported all-null or without a bitmap; on a
bitmap with zero unset bits, overwrite the accumulator with an all-true
bitmap of `num_rows` bits and break; otherwise AND the bitmap into the
accumulator. -/
def initMarkersLoop (cols : List Column) (valids : Option (List Bool))
    (num_rows : Nat) : Option (List Bool) :=
  match cols with
  | [] => valids
  | c :: rest =>
    let info := c.validityInfo
    if info.1 = false then
      match info.2 with
      | some tmp_valids =>
        if tmp_valids.count false = 0 then
          some (List.replicate num_rows true)
        else
          initMarkersLoop rest (combine_validities_3 valids (some tmp_valids)) num_rows
      | none => initMarkersLoop rest valids num_rows
    else
      initMarkersLoop rest valids num_rows

/-- Marker-update loop of `JoinHashTable::init_markers`: walk the markers
with their row index, turning a marker into `Null` whenever the combined
validity bit at that index is unset. -/
def applyRowValids (v : List Bool) (idx : Nat) : List MarkerKind → List MarkerKind
  | [] => []
  | m :: rest =>
    (if v.getD idx false = false then MarkerKind.Null else m) ::
      applyRowValids v (idx + 1) rest

/-- `JoinHashTable::init_markers`: start from `num_rows` markers all
`False`; when some key column is nullable or null-typed, accumulate a
combined validity bitmap over the columns and turn every row whose combined
bit is unset into `Null`. -/
def init_markers (cols : List Column) (num_rows : Nat) : List MarkerKind :=
  if cols.any (fun c => c.is_nullable || c.is_null) then
    match initMarkersLoop cols none num_rows with
    | some v => applyRowValids v 0 (List.replicate num_rows MarkerKind.False)
    | none => List.replicate num_rows MarkerKind.False
  else
    List.replicate num_rows MarkerKind.False

/-- Effective marker computed inside `JoinHashTable::create_marker_block`:
a `False` marker is weakened to `Null` when `has_null` holds. -/
def effectiveMarker (has_null : Bool) (m : MarkerKind) : MarkerKind :=
  if m = MarkerKind.False && has_null then MarkerKind.Null else m

/-- `JoinHashTable::create_marker_block`: build the presence and value
bitmaps from the markers, wrap the boolean column with the presence bitmap,
and emit a single-column block named after the configured mark-column
index, failing with a logical error when that index is unset. -/
def create_marker_block (tbl : JoinHashTable) (has_null : Bool)
    (markers : List MarkerKind) : Except String DataBlock :=
  let validity : List Bool :=
    markers.map (fun m => !(effectiveMarker has_null m == MarkerKind.Null))
  let boolean_bit_map : List Bool :=
    markers.map (fun m => effectiveMarker has_null m == MarkerKind.True)
  match set_validity (Column.boolean boolean_bit_map) validity with
  | none => Except.error "set_validity failed"
  | some marker_column =>
    match tbl.hash_join_desc.marker_join_desc.marker_index with
    | none => Except.error "Invalid mark join"
    | some idx =>
      Except.ok
        { schema := [{ name := toString idx,
                       data_type := DataTypeKind.Nullable DataTypeKind.Boolean }],
          columns := [marker_column] }

/-- `get_bool` on a column, as used by `get_other_filters` on the constant
fast path: a constant column delegates to its inner value, a boolean column
reads its bitmap.  Modelled from the spec for the variants the caller can
produce; other variants report a downcast error. -/
def getBoolAt : Column → Nat → Except String Bool
  | Column.boolean vs, i =>
    match vs.get? i with
    | some b => Except.ok b
    | none => Except.error "index out of range"
  | Column.constCol inner _, _ => getBoolAt inner 0
  | _, _ => Except.error "not a boolean column"

/-- `JoinHashTable::get_other_filters`, embedded on the already-coerced
non-null boolean result of the residual predicate (expression evaluation
and `cast_to_nonull_boolean` live outside the translated file): the
constant fast path returns `(none, v, !v)`; otherwise the boolean column's
bitmap is returned along with whether it has zero unset bits and whether
all its bits are unset. -/
def get_other_filters (predict_boolean_nonull : Column) :
    Except String (Option (List Bool) × Bool × Bool) :=
  if predict_boolean_nonull.is_const then
    match getBoolAt predict_boolean_nonull 0 with
    | Except.ok v => Except.ok (none, v, !v)
    | Except.error e => Except.error e
  else
    match predict_boolean_nonull with
    | Column.boolean vs =>
      Except.ok (some vs, vs.count false == 0, vs.length == vs.count false)
    | _ => Except.error "downcast to BooleanColumn failed"

/-- First element of the matched build-row list with the given row
identity; this is the representative the `HashSet` collected from
`build_indexes` retains (set insertion keeps the earliest inserted
element for an identity). -/
def findFirstRow (build_indexes : List RowPtr) (ci ri : Nat) : Option RowPtr :=
  build_indexes.find? (fun q => q.sameRow ci ri)

/-- Lookup in the row match-count map by row identity. -/
def lookupState (rs : List (RowPtr × Nat)) (ci ri : Nat) : Option Nat :=
  (rs.find? (fun e => e.1.sameRow ci ri)).map (fun e => e.2)

/-- `row_state.entry(row_ptr).or_insert(0)`: insert a zero count for the
locator when its identity is absent, leaving any existing count alone. -/
def orInsertZero (rs : List (RowPtr × Nat)) (p : RowPtr) : List (RowPtr × Nat) :=
  match rs.find? (fun e => e.1.sameRow p.chunk_index p.row_index) with
  | some _ => rs
  | none => rs ++ [(p, 0)]

/-- Body of the finalizer scan for one row position: push an unmatched
locator (and zero-initialize its match count); for a full join,
additionally push the set's representative when its marker is `False`. -/
def scanStep (jt : JoinType) (build_indexes : List RowPtr)
    (acc : List RowPtr × List (RowPtr × Nat)) (pos : Nat × Nat) :
    List RowPtr × List (RowPtr × Nat) :=
  let ptr : RowPtr := { chunk_index := pos.1, row_index := pos.2, marker := none }
  let acc1 :=
    if (findFirstRow build_indexes pos.1 pos.2).isNone then
      (acc.1 ++ [ptr], orInsertZero acc.2 ptr)
    else acc
  if jt = JoinType.Full then
    match findFirstRow build_indexes pos.1 pos.2 with
    | some q =>
      if q.marker = some MarkerKind.False then (acc1.1 ++ [q], acc1.2) else acc1
    | none => acc1
  else acc1

/-- Row positions visited by the finalizer, starting chunk numbering at
`k`: for each chunk in order, every row index below its row count. -/
def rowPositionsFrom (k : Nat) : List Nat → List (Nat × Nat)
  | [] => []
  | n :: rest =>
    (List.range n).map (fun r => (k, r)) ++ rowPositionsFrom (k + 1) rest

/-- All row positions of the Row Space in storage order (chunk-major, then
row-minor). -/
def rowPositions (chunks : List Nat) : List (Nat × Nat) :=
  rowPositionsFrom 0 chunks

/-- `JoinHashTable::find_unmatched_build_indexes`: scan every row position
of the Row Space in storage order, emitting unmatched locators (and, for a
full join, matched locators whose retained marker is `False`); the updated
row match-count map is returned alongside the emitted list. -/
def find_unmatched_build_indexes (tbl : JoinHashTable) :
    List RowPtr × List (RowPtr × Nat) :=
  (rowPositions tbl.row_space.chunks).foldl
    (scanStep tbl.hash_join_desc.join_type tbl.hash_join_desc.right_join_desc.build_indexes)
    ([], tbl.hash_join_desc.right_join_desc.row_state)

/-! ## Specification-side predicates -/

/-- Structural invariant of the data model, stated from the spec: a nullable
column's presence bitmap, when present, has the length of the inner column
(checked at the top level of the column). -/
def nullableBitmapInvariant : Column → Bool
  | Column.nullable inner (some v) => v.length == inner.len
  | _ => true

/-- Well-formedness of a column per the data model: a constant column wraps
one non-constant logical value, a nullable column wraps a non-nullable inner
column and its bitmap, when present, matches the inner length. -/
def Column.wf : Column → Bool
  | Column.null _ => true
  | Column.boolean _ => true
  | Column.plain _ => true
  | Column.constCol inner _ => inner.wf && inner.len == 1 && !inner.is_const
  | Column.nullable inner v =>
    inner.wf && !inner.is_nullable &&
      (match v with
       | some b => b.length == inner.len
       | none => true)

/-- Domain of `set_validity` at its public interface: a nullable column
requires the new validity to be at least as long as its existing presence
bitmap, a constant column requires a non-empty validity; the remaining
variants accept anything. -/
def setValidityDefined : Column → List Bool → Bool
  | Column.nullable inner ev, v => (ensureValidity inner ev).length ≤ v.length
  | Column.constCol _ _, v => !v.isEmpty
  | _, _ => true

/-- Row positions of the Row Space whose identity is absent from the
matched build-row list, in storage order. -/
def unmatchedPositions (chunks : List Nat) (build_indexes : List RowPtr) :
    List (Nat × Nat) :=
  (rowPositions chunks).filter (fun pos => (findFirstRow build_indexes pos.1 pos.2).isNone)

/-- Marker of the most recently recorded matched entry for a row identity:
the last element of the matched build-row list with that identity. -/
def lastRecordedMarker (build_indexes : List RowPtr) (ci ri : Nat) :
    Option (Option MarkerKind) :=
  (findFirstRow build_indexes.reverse ci ri).map (fun q => q.marker)

/-- A key column holds a NULL value at row `i` exactly when it is
null-typed (every row is null) or it is nullable and its presence bitmap is
unset at `i`. -/
def holdsNullAt (c : Column) (i : Nat) : Prop :=
  c.is_null = true ∨
    ∃ inner b, c = Column.nullable inner (some b) ∧ i < b.length ∧ b.getD i true = false

/-! ## Claim theorems -/

/-- Helper: folding `add_column` over a list of column/field pairs appends
the columns and fields in order. -/
theorem foldl_add_column (l : List (Column × DataField)) (b : DataBlock) :
    l.foldl (fun acc cf => acc.add_column cf.1 cf.2) b =
      { schema := b.schema ++ l.map (fun cf => cf.2),
        columns := b.columns ++ l.map (fun cf => cf.1) } := by
  induction l generalizing b with
  | nil => simp
  | cons hd tl ih =>
    simp only [List.foldl_cons, List.map_cons]
    rw [ih]
    simp [DataBlock.add_column, List.append_assoc]

/-- C6: for a build batch and a probe batch whose columns all have `n` rows
(and whose build schema lists one field per column), `merge_eq_block`
returns a batch whose schema is the probe schema followed by the build
schema in original order, whose columns are the probe columns followed by
the build columns, every column keeping `n` rows — in particular column `i`
for `i` below the probe column count is unchanged from the probe batch. -/
theorem merge_eq_block_appends (build_block probe_block : DataBlock) (n : Nat)
    (hbfields : build_block.columns.length = build_block.schema.length)
    (hb : ∀ c ∈ build_block.columns, c.len = n)
    (hp : ∀ c ∈ probe_block.columns, c.len = n) :
    (merge_eq_block build_block probe_block).schema =
        probe_block.schema ++ build_block.schema ∧
      (merge_eq_block build_block probe_block).columns =
        probe_block.columns ++ build_block.columns ∧
      (∀ c ∈ (merge_eq_block build_block probe_block).columns, c.len = n) ∧
      (∀ i, i < probe_block.columns.length →
        (merge_eq_block build_block probe_block).columns.get? i =
          probe_block.columns.get? i) := by
  have hzip1 : (build_block.columns.zip build_block.schema).map (fun cf => cf.1) =
      build_block.columns := by
    exact List.map_fst_zip _ _ (le_of_eq hbfields)
  have hzip2 : (build_block.columns.zip build_block.schema).map (fun cf => cf.2) =
      build_block.schema := by
    exact List.map_snd_zip _ _ (ge_of_eq hbfields)
  have hfold := foldl_add_column (build_block.columns.zip build_block.schema) probe_block
  have hs : (merge_eq_block build_block probe_block).schema =
      probe_block.schema ++ build_block.schema := by
    rw [merge_eq_block, hfold]
    simp [hzip2]
  have hc : (merge_eq_block build_block probe_block).columns =
      probe_block.columns ++ build_block.columns := by
    rw [merge_eq_block, hfold]
    simp [hzip1]
  refine ⟨hs, hc, ?_, ?_⟩
  · intro c hcmem
    rw [hc] at hcmem
    rcases List.mem_append.mp hcmem with h | h
    · exact hp c h
    · exact hb c h
  · intro i hi
    rw [hc]
    exact List.get?_append hi

/-- C6 witness: a concrete one-column build block appended onto a concrete
one-column probe block. -/
theorem merge_eq_block_appends_witness :
    (merge_eq_block
        { schema := [{ name := "b", data_type := DataTypeKind.Boolean }],
          columns := [Column.boolean [true, false]] }
        { schema := [{ name := "p", data_type := DataTypeKind.Other 0 }],
          columns := [Column.plain [7, 9]] }).schema =
      [{ name := "p", data_type := DataTypeKind.Other 0 },
       { name := "b", data_type := DataTypeKind.Boolean }] := by
  have h := merge_eq_block_appends
    { schema := [{ name := "b", data_type := DataTypeKind.Boolean }],
      columns := [Column.boolean [true, false]] }
    { schema := [{ name := "p", data_type := DataTypeKind.Other 0 }],
      columns := [Column.plain [7, 9]] }
    2 (by decide) (by decide) (by decide)
  exact h.1

/-- C7: `probe_key` performs the hash-index lookup when the key validity
bitmap is absent or set at the row position, and reports no match, never
consulting the index, when the bitmap is present and unset there. -/
theorem probe_key_null_semantics (hash_table : List (Nat × List RowPtr))
    (key : Nat) (valids : Option (List Bool)) (i : Nat) :
    (valids = none →
        probe_key hash_table key valids i =
          (hash_table.find? (fun e => e.1 == key)).map (fun e => e.2)) ∧
      (∀ v, valids = some v → i < v.length →
        (v.getD i false = true →
            probe_key hash_table key valids i =
              (hash_table.find? (fun e => e.1 == key)).map (fun e => e.2)) ∧
          (v.getD i false = false → probe_key hash_table key valids i = none)) := by
  constructor
  · intro h
    subst h
    simp [probe_key]
  · intro v hv _
    subst hv
    constructor
    · intro hbit
      simp only [List.getD, List.get?_eq_getElem?] at hbit
      simp [probe_key, List.getD, List.get?_eq_getElem?, hbit]
    · intro hbit
      simp only [List.getD, List.get?_eq_getElem?] at hbit
      simp [probe_key, List.getD, List.get?_eq_getElem?, hbit]

/-- C7 witness: a set validity bit leads to a lookup, evaluated on a
concrete one-entry hash index. -/
theorem probe_key_null_semantics_witness :
    probe_key [(5, [{ chunk_index := 0, row_index := 0, marker := none }])] 5
        (some [true]) 0 =
      some [{ chunk_index := 0, row_index := 0, marker := none }] := by
  have h := (probe_key_null_semantics
    [(5, [{ chunk_index := 0, row_index := 0, marker := none }])] 5
    (some [true]) 0).2 [true] rfl (by decide)
  rw [h.1 (by decide)]
  decide

/-- C5: on the constant fast path `get_other_filters` returns
`(none, C, !C)` for constant value `C`, and on a non-constant boolean
result it returns the bitmap together with an all-true flag that holds
exactly when the bitmap has zero unset bits and an all-false flag that
holds exactly when every bit is unset. -/
theorem get_other_filters_spec (bvals vs : List Bool) (n : Nat) (c : Bool)
    (hc : bvals.get? 0 = some c) :
    get_other_filters (Column.constCol (Column.boolean bvals) n) =
        Except.ok (none, c, !c) ∧
      get_other_filters (Column.boolean vs) =
        Except.ok (some vs, vs.count false == 0, vs.length == vs.count false) ∧
      ((vs.count false == 0) = true ↔ ∀ b ∈ vs, b = true) ∧
      ((vs.length == vs.count false) = true ↔ ∀ b ∈ vs, b = false) := by
  refine ⟨?_, ?_, ?_, ?_⟩
  · simp only [List.get?_eq_getElem?] at hc
    simp [get_other_filters, Column.is_const, getBoolAt, hc]
  · simp [get_other_filters, Column.is_const]
  · rw [Nat.beq_eq_true_eq, List.count_eq_zero]
    constructor
    · intro hnot b hb
      cases b with
      | true => rfl
      | false => exact absurd hb hnot
    · intro hall hb
      exact Bool.false_ne_true (hall false hb)
  · rw [Nat.beq_eq_true_eq, eq_comm, List.count_eq_length]
    constructor
    · intro hall b hb
      exact (hall b hb).symm
    · intro hall b hb
      exact (hall b hb).symm

/-- C5 witness: evaluated on a concrete constant-true predicate result and
a concrete mixed bitmap. -/
theorem get_other_filters_spec_witness :
    get_other_filters (Column.constCol (Column.boolean [true]) 4) =
        Except.ok (none, true, false) ∧
      get_other_filters (Column.boolean [true, false]) =
        Except.ok (some [true, false], false, false) := by
  have h := get_other_filters_spec [true] [true, false] 4 true rfl
  exact ⟨h.1, h.2.1⟩

/-- Helper: reading inside the zipped part of the rewritten bitmap. -/
theorem get?_zipWith_and (v e : List Bool) (i : Nat)
    (hi : i < e.length) (hle : e.length ≤ v.length) :
    (List.zipWith (· && ·) v e).get? i = some (v.getD i false && e.getD i false) := by
  induction v generalizing e i with
  | nil =>
    simp at hle
    rw [hle] at hi
    exact absurd hi (Nat.not_lt_zero i)
  | cons a v ih =>
    cases e with
    | nil => exact absurd hi (Nat.not_lt_zero i)
    | cons b e =>
      cases i with
      | zero => simp [List.getD]
      | succ j =>
        simp only [List.zipWith_cons_cons, List.get?_cons_succ]
        have hi2 : j < e.length := Nat.lt_of_succ_lt_succ hi
        have hle2 : e.length ≤ v.length := Nat.le_of_succ_le_succ hle
        rw [ih e j hi2 hle2]
        simp [List.getD]

/-- C8: rewrapping a nullable column whose existing presence bitmap has
length `m` with a validity of length `n ≥ m` keeps the inner values
unchanged and produces a presence bitmap of length `n` whose bit `i` is the
AND of the new validity bit and the existing bit for `i < m` and is unset
for `m ≤ i < n`. -/
theorem set_validity_nullable_spec (inner : Column) (ev v : List Bool)
    (hle : ev.length ≤ v.length) :
    ∃ w, set_validity (Column.nullable inner (some ev)) v =
        some (Column.nullable inner (some w)) ∧
      w.length = v.length ∧
      (∀ i, i < ev.length → w.get? i = some (v.getD i false && ev.getD i false)) ∧
      (∀ i, ev.length ≤ i → i < v.length → w.get? i = some false) := by
  refine ⟨List.zipWith (· && ·) v ev ++ List.replicate (v.length - ev.length) false,
    ?_, ?_, ?_, ?_⟩
  · rw [set_validity]
    simp only [ensureValidity]
    rw [if_neg (Nat.not_lt.mpr hle)]
  · rw [List.length_append, List.length_zipWith, List.length_replicate,
      Nat.min_eq_right hle]
    exact Nat.add_sub_cancel' hle
  · intro i hi
    have hlt : i < (List.zipWith (· && ·) v ev).length := by
      rw [List.length_zipWith, Nat.min_eq_right hle]
      exact hi
    rw [List.get?_append hlt]
    exact get?_zipWith_and v ev i hi hle
  · intro i hge hlt
    have hlen : (List.zipWith (· && ·) v ev).length = ev.length := by
      rw [List.length_zipWith, Nat.min_eq_right hle]
    have h1 : (List.zipWith (· && ·) v ev).length ≤ i := by
      rw [hlen]; exact hge
    rw [List.get?_append_right h1, hlen]
    have : i - ev.length < v.length - ev.length := by
      exact Nat.sub_lt_sub_right hge hlt
    rw [List.get?_eq_get (by rw [List.length_replicate]; exact this)]
    simp

/-- C8 witness: a concrete nullable column rewrapped with a strictly longer
validity; the padded tail is not present. -/
theorem set_validity_nullable_spec_witness :
    ∃ w, set_validity (Column.nullable (Column.plain [4, 5]) (some [true, false]))
        [true, true, true] = some (Column.nullable (Column.plain [4, 5]) (some w)) ∧
      w.get? 0 = some true ∧ w.get? 1 = some false ∧ w.get? 2 = some false := by
  obtain ⟨w, heq, hlen, hzip, hpad⟩ :=
    set_validity_nullable_spec (Column.plain [4, 5]) [true, false] [true, true, true]
      (by decide)
  refine ⟨w, heq, ?_, ?_, ?_⟩
  · rw [hzip 0 (by decide)]; decide
  · rw [hzip 1 (by decide)]; decide
  · rw [hpad 2 (by decide) (by decide)]

/-- C9 counterexample: wrapping a one-row plain column with a two-bit
validity succeeds yet yields a nullable column whose presence bitmap is
longer than its inner column, so the returned column violates the stated
structural invariant. -/
theorem set_validity_invariant_cex :
    set_validity (Column.plain [0]) [true, true] =
        some (Column.nullable (Column.plain [0]) (some [true, true])) ∧
      nullableBitmapInvariant
        (Column.nullable (Column.plain [0]) (some [true, true])) = false := by
  decide

/-- C9 amended: a column returned by `set_validity` satisfies the nullable
structural invariant provided the validity argument has exactly the length
of the input column (and the input itself satisfies the invariant); with a
strictly longer validity the padded bitmap outgrows the unchanged inner
column and the invariant fails, as the counterexample shows. -/
theorem set_validity_preserves_invariant (col : Column) (v : List Bool) (r : Column)
    (hinv : nullableBitmapInvariant col = true)
    (hlen : v.length = col.len)
    (hres : set_validity col v = some r) :
    nullableBitmapInvariant r = true := by
  cases col with
  | null n =>
    rw [set_validity] at hres
    cases hres
    rfl
  | boolean vs =>
    rw [set_validity] at hres
    cases hres
    simp only [nullableBitmapInvariant]
    rw [Nat.beq_eq_true_eq]
    exact hlen
  | plain vs =>
    rw [set_validity] at hres
    cases hres
    simp only [nullableBitmapInvariant]
    rw [Nat.beq_eq_true_eq]
    exact hlen
  | constCol inner len =>
    rw [set_validity] at hres
    by_cases hv : v.length < 1
    · rw [if_pos hv] at hres
      exact absurd hres (by simp)
    · rw [if_neg hv] at hres
      cases hrec : set_validity inner (v.take 1) with
      | none =>
        rw [hrec] at hres
        exact absurd hres (by simp)
      | some newInner =>
        rw [hrec] at hres
        cases hres
        rfl
  | nullable inner ev =>
    rw [set_validity] at hres
    have hex : (ensureValidity inner ev).length = inner.len := by
      cases ev with
      | none => simp [ensureValidity]
      | some b =>
        simp only [nullableBitmapInvariant] at hinv
        rw [Nat.beq_eq_true_eq] at hinv
        simp [ensureValidity, hinv]
    have hcl : (Column.nullable inner ev).len = inner.len := rfl
    rw [hcl] at hlen
    have hnl : ¬ v.length < (ensureValidity inner ev).length := by
      rw [hex, ← hlen]
      exact Nat.lt_irrefl v.length
    rw [if_neg hnl] at hres
    cases hres
    simp only [nullableBitmapInvariant]
    rw [Nat.beq_eq_true_eq, List.length_append, List.length_zipWith,
      List.length_replicate, hex, ← hlen, Nat.min_self, Nat.sub_self, Nat.add_zero]

/-- C9 witness: the amended invariant preservation evaluated on a concrete
nullable column with an equal-length validity. -/
theorem set_validity_preserves_invariant_witness :
    nullableBitmapInvariant
      (Column.nullable (Column.plain [4, 5]) (some [true, false])) = true := by
  exact set_validity_preserves_invariant
    (Column.nullable (Column.plain [4, 5]) (some [true, true])) [true, false]
    (Column.nullable (Column.plain [4, 5]) (some [true, false]))
    (by decide) (by decide) (by decide)

/-- Helper for C10: on a well-formed non-constant column of length one,
`set_validity` succeeds for any one-bit validity. -/
theorem set_validity_isSome_of_len_one (inner : Column) (w : List Bool)
    (hwf : inner.wf = true) (hnc : inner.is_const = false)
    (hlen1 : inner.len = 1) (hw : w.length = 1) :
    (set_validity inner w).isSome = true := by
  cases inner with
  | null n => rw [set_validity]; rfl
  | boolean vs => rw [set_validity]; rfl
  | plain vs => rw [set_validity]; rfl
  | constCol i l => exact absurd hnc (by simp [Column.is_const])
  | nullable inner2 ev =>
    have hex : (ensureValidity inner2 ev).length = inner2.len := by
      cases ev with
      | none => simp [ensureValidity]
      | some b =>
        simp only [Column.wf, Bool.and_eq_true] at hwf
        have hb := hwf.2
        rw [Nat.beq_eq_true_eq] at hb
        simp [ensureValidity, hb]
    have hil : (Column.nullable inner2 ev).len = inner2.len := rfl
    rw [hil] at hlen1
    rw [set_validity]
    have : ¬ w.length < (ensureValidity inner2 ev).length := by
      rw [hex, hlen1, hw]
      exact Nat.lt_irrefl 1
    rw [if_neg this]
    rfl

/-- C10: on well-formed columns `set_validity` is defined (returns `Ok`)
exactly on its stated domain — a nullable input needs a validity at least
as long as its existing presence bitmap (the length difference is an
unsigned subtraction), a constant input needs a non-empty validity (its
first bit is sliced off), and null-typed or plain inputs always succeed. -/
theorem set_validity_domain (col : Column) (v : List Bool) (hwf : col.wf = true) :
    (set_validity col v).isSome = setValidityDefined col v := by
  cases col with
  | null n => rfl
  | boolean vs => rfl
  | plain vs => rfl
  | constCol inner len =>
    simp only [Column.wf, Bool.and_eq_true] at hwf
    obtain ⟨⟨hiwf, hil⟩, hnc⟩ := hwf
    rw [Nat.beq_eq_true_eq] at hil
    rw [Bool.not_eq_true'] at hnc
    rw [set_validity, setValidityDefined]
    by_cases hv : v.length < 1
    · have hve : v = [] := List.length_eq_zero.mp (Nat.lt_one_iff.mp hv)
      rw [if_pos hv, hve]
      rfl
    · rw [if_neg hv]
      have hw : (v.take 1).length = 1 := by
        rw [List.length_take]
        exact Nat.min_eq_left (Nat.le_of_not_lt hv)
      have hrec := set_validity_isSome_of_len_one inner (v.take 1) hiwf hnc hil hw
      cases hrecv : set_validity inner (v.take 1) with
      | none => rw [hrecv] at hrec; exact absurd hrec (by simp)
      | some newInner =>
        have hvne : v.isEmpty = false := by
          cases v with
          | nil => exact absurd (by decide) hv
          | cons a t => rfl
        rw [hvne]
        rfl
  | nullable inner ev =>
    rw [set_validity, setValidityDefined]
    by_cases hv : v.length < (ensureValidity inner ev).length
    · rw [if_pos hv]
      have : ¬ (ensureValidity inner ev).length ≤ v.length := Nat.not_le.mpr hv
      simp [this]
    · rw [if_neg hv]
      have : (ensureValidity inner ev).length ≤ v.length := Nat.le_of_not_lt hv
      simp [this]

/-- C10 witness: evaluated on a concrete well-formed nullable column, with
a long-enough validity (defined) and a too-short validity (a panic of the
unsigned subtraction, embedded as an undefined result). -/
theorem set_validity_domain_witness :
    (set_validity (Column.nullable (Column.plain [4, 5]) (some [true, false]))
          [true, true]).isSome = true ∧
      (set_validity (Column.nullable (Column.plain [4, 5]) (some [true, false]))
          [true]).isSome = false := by
  constructor
  · rw [set_validity_domain
      (Column.nullable (Column.plain [4, 5]) (some [true, false])) [true, true]
      (by decide)]
    decide
  · rw [set_validity_domain
      (Column.nullable (Column.plain [4, 5]) (some [true, false])) [true]
      (by decide)]
    decide

/-- C3: `create_marker_block` fails with the logical error exactly when the
mark-column index is unset; otherwise it returns a single-column
nullable-boolean block over the markers in which the presence bit of a row
is false exactly when the effective marker (a `False` marker weakened to
`Null` under `has_null`) is `Null`, and the boolean value is true exactly
when the effective marker is `True`. -/
theorem create_marker_block_spec (tbl : JoinHashTable) (has_null : Bool)
    (markers : List MarkerKind) :
    (tbl.hash_join_desc.marker_join_desc.marker_index = none →
        create_marker_block tbl has_null markers = Except.error "Invalid mark join") ∧
      (∀ idx, tbl.hash_join_desc.marker_join_desc.marker_index = some idx →
        ∃ bb vv,
          create_marker_block tbl has_null markers =
              Except.ok
                { schema := [{ name := toString idx,
                               data_type := DataTypeKind.Nullable DataTypeKind.Boolean }],
                  columns := [Column.nullable (Column.boolean bb) (some vv)] } ∧
            bb.length = markers.length ∧
            vv.length = markers.length ∧
            (Column.nullable (Column.boolean bb) (some vv)).len = markers.length ∧
            (∀ i m, markers.get? i = some m →
              (vv.get? i = some false ↔ effectiveMarker has_null m = MarkerKind.Null) ∧
              (bb.get? i = some true ↔ effectiveMarker has_null m = MarkerKind.True))) := by
  constructor
  · intro hnone
    simp [create_marker_block, set_validity, hnone]
  · intro idx hidx
    refine ⟨markers.map (fun m => effectiveMarker has_null m == MarkerKind.True),
      markers.map (fun m => !(effectiveMarker has_null m == MarkerKind.Null)),
      ?_, ?_, ?_, ?_, ?_⟩
    · simp [create_marker_block, set_validity, hidx]
    · simp
    · simp
    · simp [Column.len]
    · intro i m hm
      constructor
      · rw [List.get?_map, hm]
        cases heq : effectiveMarker has_null m <;> simp [heq]
      · rw [List.get?_map, hm]
        cases heq : effectiveMarker has_null m <;> simp [heq]

/-- C3 witness: evaluated with a configured mark-column index on one
`True` marker and one `False` marker under `has_null = true`: the `True`
row stays present and true, the `False` row becomes absent. -/
theorem create_marker_block_spec_witness :
    ∃ bb vv,
      create_marker_block
          { hash_join_desc :=
              { join_type := JoinType.Mark,
                marker_join_desc := { marker_index := some 0 },
                right_join_desc := { build_indexes := [], row_state := [] } },
            row_space := { chunks := [] } }
          true [MarkerKind.True, MarkerKind.False] =
          Except.ok
            { schema := [{ name := toString 0,
                           data_type := DataTypeKind.Nullable DataTypeKind.Boolean }],
              columns := [Column.nullable (Column.boolean bb) (some vv)] } ∧
        bb.length = 2 ∧
        vv.length = 2 ∧
        (Column.nullable (Column.boolean bb) (some vv)).len = 2 ∧
        (∀ i m, [MarkerKind.True, MarkerKind.False].get? i = some m →
          (vv.get? i = some false ↔ effectiveMarker true m = MarkerKind.Null) ∧
          (bb.get? i = some true ↔ effectiveMarker true m = MarkerKind.True)) := by
  exact (create_marker_block_spec
    { hash_join_desc :=
        { join_type := JoinType.Mark,
          marker_join_desc := { marker_index := some 0 },
          right_join_desc := { build_indexes := [], row_state := [] } },
      row_space := { chunks := [] } }
    true [MarkerKind.True, MarkerKind.False]).2 0 rfl

/-- Helper: list indexing with a default ignores the default in bounds. -/
theorem getD_default_irrel (l : List Bool) (i : Nat) (h : i < l.length)
    (d1 d2 : Bool) : l.getD i d1 = l.getD i d2 := by
  induction l generalizing i with
  | nil => exact absurd h (Nat.not_lt_zero i)
  | cons x xs ih =>
    cases i with
    | zero => rfl
    | succ j =>
      rw [List.getD_cons_succ, List.getD_cons_succ]
      exact ih j (Nat.lt_of_succ_lt_succ h)

/-- Helper: the AND-combined bitmap reads as the AND of the bits. -/
theorem getD_zipWith_and (a b : List Bool) (i : Nat)
    (hia : i < a.length) (hib : i < b.length) :
    (List.zipWith (· && ·) a b).getD i false = (a.getD i false && b.getD i false) := by
  induction a generalizing b i with
  | nil => exact absurd hia (Nat.not_lt_zero i)
  | cons x xs ih =>
    cases b with
    | nil => exact absurd hib (Nat.not_lt_zero i)
    | cons y ys =>
      cases i with
      | zero => rfl
      | succ j =>
        simp only [List.zipWith_cons_cons, List.getD_cons_succ]
        exact ih ys j (Nat.lt_of_succ_lt_succ hia) (Nat.lt_of_succ_lt_succ hib)

/-- Helper: the marker-update loop preserves the list length. -/
theorem applyRowValids_length (v : List Bool) (k : Nat) (l : List MarkerKind) :
    (applyRowValids v k l).length = l.length := by
  induction l generalizing k with
  | nil => rfl
  | cons m rest ih => simp [applyRowValids, ih]

/-- Helper: pointwise reading of the marker-update loop. -/
theorem applyRowValids_get? (v : List Bool) (k i : Nat) (l : List MarkerKind) :
    (applyRowValids v k l).get? i =
      (l.get? i).map
        (fun m => if v.getD (k + i) false = false then MarkerKind.Null else m) := by
  induction l generalizing k i with
  | nil => simp [applyRowValids]
  | cons m rest ih =>
    cases i with
    | zero => simp [applyRowValids]
    | succ j =>
      simp only [applyRowValids, List.get?_cons_succ]
      rw [ih (k + 1) j]
      have harith : k + 1 + j = k + (j + 1) := by omega
      rw [harith]

/-- Helper: the marker-update loop only introduces `Null` markers. -/
theorem mem_applyRowValids (v : List Bool) (k : Nat) (l : List MarkerKind)
    (m : MarkerKind) (hm : m ∈ applyRowValids v k l) :
    m = MarkerKind.Null ∨ m ∈ l := by
  induction l generalizing k with
  | nil => exact absurd hm (List.not_mem_nil m)
  | cons x rest ih =>
    simp only [applyRowValids, List.mem_cons] at hm
    rcases hm with h | h
    · by_cases hc : v.getD k false = false
      · rw [if_pos hc] at h
        exact Or.inl h
      · rw [if_neg hc] at h
        exact Or.inr (List.mem_cons.mpr (Or.inl h))
    · rcases ih (k + 1) h with h2 | h2
      · exact Or.inl h2
      · exact Or.inr (List.mem_cons_of_mem x h2)

/-- Helper: reading a replicated list in bounds. -/
theorem get?_replicate_of_lt (a : MarkerKind) (n i : Nat) (h : i < n) :
    (List.replicate n a).get? i = some a := by
  induction n generalizing i with
  | zero => exact absurd h (Nat.not_lt_zero i)
  | succ n ih =>
    cases i with
    | zero => rfl
    | succ j => exact ih j (Nat.lt_of_succ_lt_succ h)

/-- Helper: when no key column is reported all-null without a bitmap and
every nullable bitmap is long enough and carries an unset bit (so the
all-present short circuit never fires), the validity-accumulation loop
returns a combined bitmap that is unset wherever some nullable bitmap is
unset, and likewise preserves unset bits of the accumulator. -/
theorem initMarkersLoop_spec (num_rows i : Nat) (hi : i < num_rows) :
    ∀ (cols : List Column) (acc : Option (List Bool)),
      (∀ c ∈ cols, ∀ inner ev, c = Column.nullable inner ev →
        ∃ b, ev = some b ∧ num_rows ≤ b.length ∧ false ∈ b) →
      (∀ a, acc = some a → num_rows ≤ a.length) →
      ((∃ inner b, Column.nullable inner (some b) ∈ cols ∧ b.getD i true = false) ∨
        (∃ a, acc = some a ∧ a.getD i false = false)) →
      ∃ v, initMarkersLoop cols acc num_rows = some v ∧
        num_rows ≤ v.length ∧ v.getD i false = false := by
  intro cols
  induction cols with
  | nil =>
    intro acc H hacc hsrc
    rcases hsrc with ⟨inner, b, hmem, _⟩ | ⟨a, ha, hbit⟩
    · exact absurd hmem (List.not_mem_nil _)
    · subst ha
      exact ⟨a, by simp [initMarkersLoop], hacc a rfl, hbit⟩
  | cons c rest ih =>
    intro acc H hacc hsrc
    have Hrest : ∀ c2 ∈ rest, ∀ inner ev, c2 = Column.nullable inner ev →
        ∃ b, ev = some b ∧ num_rows ≤ b.length ∧ false ∈ b := by
      intro c2 hc2
      exact H c2 (List.mem_cons_of_mem c hc2)
    cases c with
    | null n =>
      simp only [initMarkersLoop, Column.validityInfo]
      rw [if_neg (by decide)]
      refine ih acc Hrest hacc ?_
      rcases hsrc with ⟨inner, b, hmem, hbit⟩ | hacc2
      · rcases List.mem_cons.mp hmem with heq | hmem2
        · exact absurd heq (by simp)
        · exact Or.inl ⟨inner, b, hmem2, hbit⟩
      · exact Or.inr hacc2
    | boolean vs =>
      simp only [initMarkersLoop, Column.validityInfo]
      rw [if_pos trivial]
      refine ih acc Hrest hacc ?_
      rcases hsrc with ⟨inner, b, hmem, hbit⟩ | hacc2
      · rcases List.mem_cons.mp hmem with heq | hmem2
        · exact absurd heq (by simp)
        · exact Or.inl ⟨inner, b, hmem2, hbit⟩
      · exact Or.inr hacc2
    | plain vs =>
      simp only [initMarkersLoop, Column.validityInfo]
      rw [if_pos trivial]
      refine ih acc Hrest hacc ?_
      rcases hsrc with ⟨inner, b, hmem, hbit⟩ | hacc2
      · rcases List.mem_cons.mp hmem with heq | hmem2
        · exact absurd heq (by simp)
        · exact Or.inl ⟨inner, b, hmem2, hbit⟩
      · exact Or.inr hacc2
    | constCol inner0 len0 =>
      simp only [initMarkersLoop, Column.validityInfo]
      rw [if_pos trivial]
      refine ih acc Hrest hacc ?_
      rcases hsrc with ⟨inner, b, hmem, hbit⟩ | hacc2
      · rcases List.mem_cons.mp hmem with heq | hmem2
        · exact absurd heq (by simp)
        · exact Or.inl ⟨inner, b, hmem2, hbit⟩
      · exact Or.inr hacc2
    | nullable inner ev =>
      obtain ⟨b, hev, hblen, hbfalse⟩ :=
        H (Column.nullable inner ev) (List.mem_cons_self _ _) inner ev rfl
      subst hev
      simp only [initMarkersLoop, Column.validityInfo, ensureValidity]
      rw [if_pos trivial]
      have hcount : ¬ b.count false = 0 := by
        intro h
        exact (List.count_eq_zero.mp h) hbfalse
      rw [if_neg hcount]
      have hib : i < b.length := Nat.lt_of_lt_of_le hi hblen
      cases hachoice : acc with
      | none =>
        simp only [combine_validities_3]
        refine ih (some b) Hrest (by intro a ha; cases ha; exact hblen) ?_
        rcases hsrc with ⟨inner2, b2, hmem, hbit⟩ | ⟨a, ha, _⟩
        · rcases List.mem_cons.mp hmem with heq | hmem2
          · have hb2 : b2 = b := by
              have := (Column.nullable.injEq _ _ _ _).mp heq
              exact Option.some.inj this.2
            rw [hb2] at hbit
            refine Or.inr ⟨b, rfl, ?_⟩
            rw [getD_default_irrel b i hib false true]
            exact hbit
          · exact Or.inl ⟨inner2, b2, hmem2, hbit⟩
        · rw [hachoice] at ha
          cases ha
      | some a =>
        have halen : num_rows ≤ a.length := hacc a hachoice
        have hia : i < a.length := Nat.lt_of_lt_of_le hi halen
        simp only [combine_validities_3]
        refine ih (some (List.zipWith (· && ·) a b)) Hrest ?_ ?_
        · intro a2 ha2
          cases ha2
          rw [List.length_zipWith]
          exact le_min halen hblen
        · rcases hsrc with ⟨inner2, b2, hmem, hbit⟩ | ⟨a2, ha2, hbit2⟩
          · rcases List.mem_cons.mp hmem with heq | hmem2
            · have hb2 : b2 = b := by
                have := (Column.nullable.injEq _ _ _ _).mp heq
                exact Option.some.inj this.2
              rw [hb2] at hbit
              refine Or.inr ⟨_, rfl, ?_⟩
              rw [getD_zipWith_and a b i hia hib]
              rw [getD_default_irrel b i hib false true, hbit]
              exact Bool.and_false _
            · exact Or.inl ⟨inner2, b2, hmem2, hbit⟩
          · rw [hachoice] at ha2
            have ha2e : a = a2 := Option.some.inj ha2
            rw [← ha2e] at hbit2
            refine Or.inr ⟨_, rfl, ?_⟩
            rw [getD_zipWith_and a b i hia hib, hbit2]
            exact Bool.false_and _

/-- C1 counterexample: with key columns consisting of a null-typed column,
a nullable column with no unset bit, and a nullable column whose bit at
row 0 is unset, row 0 holds a NULL value in some key column, yet
`init_markers` leaves the marker `False` instead of `Null`: the null-typed
column contributes no bitmap, and the all-present second column makes the
loop overwrite the accumulator with an all-true bitmap and break before the
third column is examined. -/
theorem init_markers_cex :
    init_markers
        [Column.null 1, Column.nullable (Column.plain [0]) (some [true]),
         Column.nullable (Column.plain [0]) (some [false])] 1 =
      [MarkerKind.False] ∧
      holdsNullAt (Column.null 1) 0 ∧
      holdsNullAt (Column.nullable (Column.plain [0]) (some [false])) 0 := by
  refine ⟨by decide, Or.inl rfl, Or.inr ⟨Column.plain [0], [false], rfl, by decide, by decide⟩⟩

/-- C1 amended: `init_markers` always returns `num_rows` markers, none of
them `True`; they are all `False` when no key column is nullable or
null-typed; and, provided every nullable key column carries a bitmap of at
least `num_rows` bits with at least one unset bit (ruling out the
all-present short circuit that discards previously combined columns; a
null-typed column never contributes), every row below `num_rows` at which
some nullable key column's presence bitmap is unset gets marker `Null`. -/
theorem init_markers_amended (cols : List Column) (num_rows : Nat) :
    (init_markers cols num_rows).length = num_rows ∧
      ((∀ c ∈ cols, c.is_nullable = false ∧ c.is_null = false) →
        init_markers cols num_rows = List.replicate num_rows MarkerKind.False) ∧
      (∀ m ∈ init_markers cols num_rows, m ≠ MarkerKind.True) ∧
      ((∀ c ∈ cols, ∀ inner ev, c = Column.nullable inner ev →
          ∃ b, ev = some b ∧ num_rows ≤ b.length ∧ false ∈ b) →
        ∀ i, i < num_rows →
          (∃ inner b, Column.nullable inner (some b) ∈ cols ∧ b.getD i true = false) →
          (init_markers cols num_rows).getD i MarkerKind.False = MarkerKind.Null) := by
  refine ⟨?_, ?_, ?_, ?_⟩
  · rw [init_markers]
    by_cases hany : cols.any (fun c => c.is_nullable || c.is_null) = true
    · rw [if_pos hany]
      cases hloop : initMarkersLoop cols none num_rows with
      | none => simp
      | some v => rw [applyRowValids_length, List.length_replicate]
    · rw [if_neg hany, List.length_replicate]
  · intro hplain
    have hany : cols.any (fun c => c.is_nullable || c.is_null) = false := by
      rw [List.any_eq_false]
      intro c hc
      obtain ⟨h1, h2⟩ := hplain c hc
      simp [h1, h2]
    simp [init_markers, hany]
  · intro m hm
    rw [init_markers] at hm
    have hrep : ∀ m2, m2 ∈ List.replicate num_rows MarkerKind.False →
        m2 ≠ MarkerKind.True := by
      intro m2 hm2 heq
      have := List.eq_of_mem_replicate hm2
      rw [heq] at this
      cases this
    by_cases hany : cols.any (fun c => c.is_nullable || c.is_null) = true
    · rw [if_pos hany] at hm
      cases hloop : initMarkersLoop cols none num_rows with
      | none =>
        rw [hloop] at hm
        exact hrep m hm
      | some v =>
        rw [hloop] at hm
        rcases mem_applyRowValids v 0 _ m hm with h | h
        · rw [h]
          intro heq
          cases heq
        · exact hrep m h
    · rw [if_neg hany] at hm
      exact hrep m hm
  · intro H i hi hex
    obtain ⟨inner, b, hmem, hbit⟩ := hex
    have hany : cols.any (fun c => c.is_nullable || c.is_null) = true := by
      rw [List.any_eq_true]
      exact ⟨Column.nullable inner (some b), hmem, by simp [Column.is_nullable]⟩
    obtain ⟨v, hloop, hvlen, hvbit⟩ :=
      initMarkersLoop_spec num_rows i hi cols none H (by intro a ha; cases ha)
        (Or.inl ⟨inner, b, hmem, hbit⟩)
    rw [init_markers, if_pos hany, hloop]
    have hget := applyRowValids_get? v 0 i (List.replicate num_rows MarkerKind.False)
    rw [get?_replicate_of_lt MarkerKind.False num_rows i hi] at hget
    rw [List.getD_eq_getD_get?, hget]
    simp only [List.getD, List.get?_eq_getElem?] at hvbit
    simp [hvbit]

/-- C1 witness: the amended marker pre-flagging evaluated on one nullable
key column whose single bit is unset. -/
theorem init_markers_amended_witness :
    (init_markers [Column.nullable (Column.plain [0]) (some [false])] 1).getD 0
        MarkerKind.False = MarkerKind.Null := by
  exact (init_markers_amended [Column.nullable (Column.plain [0]) (some [false])] 1).2.2.2
    (by
      intro c hc inner ev hc2
      rcases List.mem_cons.mp hc with heq | hmem
      · refine ⟨[false], ?_, by decide, by decide⟩
        rw [heq] at hc2
        exact ((Column.nullable.injEq _ _ _ _).mp hc2.symm).2
      · exact absurd hmem (List.not_mem_nil c))
    0 (by decide)
    ⟨Column.plain [0], [false], List.mem_cons_self _ _, by decide⟩

/-- Helper: a locator found by row identity carries those coordinates. -/
theorem findFirstRow_coords (bset : List RowPtr) (ci ri : Nat) (q : RowPtr)
    (h : findFirstRow bset ci ri = some q) :
    q.chunk_index = ci ∧ q.row_index = ri := by
  have := List.find?_some h
  simp only [RowPtr.sameRow, Bool.and_eq_true, beq_iff_eq] at this
  exact this

/-- Helper: the emitted-list component of one finalizer step is the previous
list extended by the unmatched locator and, for a full join, the retained
`False`-marked representative. -/
theorem scanStep_fst (jt : JoinType) (bset : List RowPtr)
    (acc : List RowPtr × List (RowPtr × Nat)) (pos : Nat × Nat) :
    (scanStep jt bset acc pos).1 =
      acc.1 ++
        (if (findFirstRow bset pos.1 pos.2).isNone then
          [{ chunk_index := pos.1, row_index := pos.2, marker := none }] else []) ++
        (match findFirstRow bset pos.1 pos.2 with
         | some q =>
           if jt = JoinType.Full ∧ q.marker = some MarkerKind.False then [q] else []
         | none => []) := by
  cases hf : findFirstRow bset pos.1 pos.2 with
  | none =>
    by_cases hjt : jt = JoinType.Full <;> simp [scanStep, hf, hjt]
  | some q =>
    by_cases hjt : jt = JoinType.Full
    · by_cases hm : q.marker = some MarkerKind.False <;> simp [scanStep, hf, hjt, hm]
    · simp [scanStep, hf, hjt]

/-- Helper: the match-count component of one finalizer step changes only by
the zero-initializing insert of an unmatched locator. -/
theorem scanStep_snd (jt : JoinType) (bset : List RowPtr)
    (acc : List RowPtr × List (RowPtr × Nat)) (pos : Nat × Nat) :
    (scanStep jt bset acc pos).2 =
      if (findFirstRow bset pos.1 pos.2).isNone then
        orInsertZero acc.2 { chunk_index := pos.1, row_index := pos.2, marker := none }
      else acc.2 := by
  cases hf : findFirstRow bset pos.1 pos.2 with
  | none =>
    by_cases hjt : jt = JoinType.Full <;> simp [scanStep, hf, hjt]
  | some q =>
    by_cases hjt : jt = JoinType.Full
    · by_cases hm : q.marker = some MarkerKind.False <;> simp [scanStep, hf, hjt, hm]
    · simp [scanStep, hf, hjt]

/-- Helper: looking a row identity up after appending one entry falls back
to the appended entry only when the original map lacks the identity. -/
theorem lookupState_append_single (rs : List (RowPtr × Nat)) (p : RowPtr) (k : Nat)
    (ci ri : Nat) :
    lookupState (rs ++ [(p, k)]) ci ri =
      match lookupState rs ci ri with
      | some x => some x
      | none => if p.sameRow ci ri then some k else none := by
  induction rs with
  | nil =>
    by_cases hp : p.sameRow ci ri
    · simp [lookupState, List.find?, hp]
    · simp [lookupState, List.find?, hp]
  | cons e rest ih =>
    by_cases he : e.1.sameRow ci ri = true
    · simp [lookupState, List.find?, he]
    · have he2 : e.1.sameRow ci ri = false := Bool.eq_false_iff.mpr he
      simp only [lookupState, List.cons_append, List.find?] at ih ⊢
      rw [he2]
      exact ih

/-- Helper: the zero-initializing insert preserves every existing count and
adds a zero count exactly for an absent inserted identity. -/
theorem lookupState_orInsertZero (rs : List (RowPtr × Nat)) (ptr : RowPtr)
    (ci ri : Nat) :
    lookupState (orInsertZero rs ptr) ci ri =
      if ptr.sameRow ci ri then
        match lookupState rs ci ri with
        | some x => some x
        | none => some 0
      else lookupState rs ci ri := by
  by_cases hp : ptr.sameRow ci ri
  · have hcoords : ptr.chunk_index = ci ∧ ptr.row_index = ri := by
      simpa only [RowPtr.sameRow, Bool.and_eq_true, beq_iff_eq] using hp
    rw [if_pos hp, orInsertZero]
    cases hfind : rs.find? (fun e => e.1.sameRow ptr.chunk_index ptr.row_index) with
    | some e =>
      rw [hcoords.1, hcoords.2] at hfind
      have : lookupState rs ci ri = some e.2 := by
        rw [lookupState, hfind]
        rfl
      rw [this]
    | none =>
      rw [hcoords.1, hcoords.2] at hfind
      have hnone : lookupState rs ci ri = none := by
        rw [lookupState, hfind]
        rfl
      rw [lookupState_append_single, hnone, if_pos hp]
  · have hp2 : ptr.sameRow ci ri = false := Bool.eq_false_iff.mpr hp
    rw [if_neg hp, orInsertZero]
    cases hfind : rs.find? (fun e => e.1.sameRow ptr.chunk_index ptr.row_index) with
    | some e => rfl
    | none =>
      rw [lookupState_append_single, hp2]
      cases lookupState rs ci ri <;> rfl

/-- Helper: over any sequence of scanned positions, the locators of the
emitted list whose identity is absent from the matched list are exactly the
previously collected ones followed by the absent positions in scan order. -/
theorem scanFold_filter (jt : JoinType) (bset : List RowPtr)
    (L : List (Nat × Nat)) :
    ∀ (out : List RowPtr) (rs : List (RowPtr × Nat)),
      ((L.foldl (scanStep jt bset) (out, rs)).1).filter
          (fun p => (findFirstRow bset p.chunk_index p.row_index).isNone) =
        out.filter (fun p => (findFirstRow bset p.chunk_index p.row_index).isNone) ++
          (L.filter (fun pos => (findFirstRow bset pos.1 pos.2).isNone)).map
            (fun pos => { chunk_index := pos.1, row_index := pos.2, marker := none }) := by
  induction L with
  | nil => intro out rs; simp
  | cons pos rest ih =>
    intro out rs
    rw [List.foldl_cons]
    have hsplit : scanStep jt bset (out, rs) pos =
        ((scanStep jt bset (out, rs) pos).1, (scanStep jt bset (out, rs) pos).2) := rfl
    rw [hsplit, ih, scanStep_fst]
    cases hf : findFirstRow bset pos.1 pos.2 with
    | none =>
      simp [List.filter_append, List.filter_cons, hf]
    | some q =>
      obtain ⟨h1, h2⟩ := findFirstRow_coords bset pos.1 pos.2 q hf
      have hq2 : findFirstRow bset q.chunk_index q.row_index = some q := by
        rw [h1, h2]
        exact hf
      by_cases hcond : jt = JoinType.Full ∧ q.marker = some MarkerKind.False
      · simp [List.filter_append, List.filter_cons, hf, hq2, hcond]
      · simp [List.filter_append, List.filter_cons, hf, hcond]

/-- Helper: over any sequence of scanned positions, the match-count map
keeps every existing count and gains a zero count exactly for the scanned
identities absent from the matched list. -/
theorem scanFold_state (jt : JoinType) (bset : List RowPtr) (ci ri : Nat)
    (L : List (Nat × Nat)) :
    ∀ (out : List RowPtr) (rs : List (RowPtr × Nat)),
      lookupState ((L.foldl (scanStep jt bset) (out, rs)).2) ci ri =
        match lookupState rs ci ri with
        | some k => some k
        | none =>
          if (ci, ri) ∈ L ∧ (findFirstRow bset ci ri).isNone = true then some 0
          else none := by
  induction L with
  | nil =>
    intro out rs
    cases h : lookupState rs ci ri <;> simp [h]
  | cons pos rest ih =>
    intro out rs
    rw [List.foldl_cons]
    have hsplit : scanStep jt bset (out, rs) pos =
        ((scanStep jt bset (out, rs) pos).1, (scanStep jt bset (out, rs) pos).2) := rfl
    rw [hsplit, ih, scanStep_snd]
    by_cases hf : (findFirstRow bset pos.1 pos.2).isNone = true
    · rw [if_pos hf, lookupState_orInsertZero]
      by_cases hp : (RowPtr.mk pos.1 pos.2 none).sameRow ci ri = true
      · have hcoords : pos.1 = ci ∧ pos.2 = ri := by
          simpa only [RowPtr.sameRow, Bool.and_eq_true, beq_iff_eq] using hp
        have hmem : (ci, ri) ∈ pos :: rest := by
          rw [List.mem_cons]
          left
          rw [Prod.ext_iff]
          exact ⟨hcoords.1.symm, hcoords.2.symm⟩
        have hfn : (findFirstRow bset ci ri).isNone = true := by
          rw [← hcoords.1, ← hcoords.2]
          exact hf
        rw [if_pos hp]
        cases hlook : lookupState rs ci ri with
        | some k => simp
        | none => simp [hmem, hfn]
      · have hne : ¬ (ci, ri) = pos := by
          intro heq
          apply hp
          rw [← heq]
          simp [RowPtr.sameRow]
        rw [if_neg hp]
        cases hlook : lookupState rs ci ri with
        | some k => simp
        | none =>
          have hiff : ((ci, ri) ∈ pos :: rest ∧ (findFirstRow bset ci ri).isNone = true) ↔
              ((ci, ri) ∈ rest ∧ (findFirstRow bset ci ri).isNone = true) := by
            constructor
            · intro h
              refine ⟨?_, h.2⟩
              rcases List.mem_cons.mp h.1 with heq | hmem2
              · exact absurd heq hne
              · exact hmem2
            · intro h
              exact ⟨List.mem_cons_of_mem pos h.1, h.2⟩
          simp only []
          rw [if_congr hiff rfl rfl]
    · rw [if_neg hf]
      cases hlook : lookupState rs ci ri with
      | some k => simp
      | none =>
        have hiff : ((ci, ri) ∈ pos :: rest ∧ (findFirstRow bset ci ri).isNone = true) ↔
            ((ci, ri) ∈ rest ∧ (findFirstRow bset ci ri).isNone = true) := by
          constructor
          · intro h
            refine ⟨?_, h.2⟩
            rcases List.mem_cons.mp h.1 with heq | hmem2
            · exfalso
              apply hf
              rw [← heq]
              exact h.2
            · exact hmem2
          · intro h
            exact ⟨List.mem_cons_of_mem pos h.1, h.2⟩
        simp only []
        rw [if_congr hiff rfl rfl]

/-- C2: the finalizer emits, among locators whose identity is absent from
the matched build-row list, exactly one locator per absent Row Space
position, in chunk-major then row-minor storage order; and the returned
match-count map keeps every pre-existing count unchanged and maps exactly
the absent scanned identities, and no others, to a fresh zero count. -/
theorem find_unmatched_build_indexes_spec (tbl : JoinHashTable) :
    ((find_unmatched_build_indexes tbl).1).filter
        (fun p => (findFirstRow tbl.hash_join_desc.right_join_desc.build_indexes
          p.chunk_index p.row_index).isNone) =
      (unmatchedPositions tbl.row_space.chunks
          tbl.hash_join_desc.right_join_desc.build_indexes).map
        (fun pos => { chunk_index := pos.1, row_index := pos.2, marker := none }) ∧
    (∀ ci ri,
      lookupState (find_unmatched_build_indexes tbl).2 ci ri =
        match lookupState tbl.hash_join_desc.right_join_desc.row_state ci ri with
        | some k => some k
        | none =>
          if (ci, ri) ∈ rowPositions tbl.row_space.chunks ∧
              (findFirstRow tbl.hash_join_desc.right_join_desc.build_indexes
                ci ri).isNone = true
          then some 0 else none) := by
  constructor
  · have h := scanFold_filter tbl.hash_join_desc.join_type
      tbl.hash_join_desc.right_join_desc.build_indexes
      (rowPositions tbl.row_space.chunks) []
      tbl.hash_join_desc.right_join_desc.row_state
    rw [find_unmatched_build_indexes, h, unmatchedPositions]
    rfl
  · intro ci ri
    have h := scanFold_state tbl.hash_join_desc.join_type
      tbl.hash_join_desc.right_join_desc.build_indexes ci ri
      (rowPositions tbl.row_space.chunks) []
      tbl.hash_join_desc.right_join_desc.row_state
    rw [find_unmatched_build_indexes, h]

/-- Helper: the finalizer scan never removes an already emitted locator. -/
theorem mem_scanFold_mono (jt : JoinType) (bset : List RowPtr)
    (L : List (Nat × Nat)) :
    ∀ (acc : List RowPtr × List (RowPtr × Nat)) (p : RowPtr), p ∈ acc.1 →
      p ∈ (L.foldl (scanStep jt bset) acc).1 := by
  induction L with
  | nil => intro acc p hp; exact hp
  | cons pos rest ih =>
    intro acc p hp
    rw [List.foldl_cons]
    apply ih
    rw [scanStep_fst]
    exact List.mem_append_left _ (List.mem_append_left _ hp)

/-- Helper: a scanned position whose retained matched representative is
`False`-marked gets that representative emitted under a full join. -/
theorem mem_scanFold_of_pos (bset : List RowPtr) (L : List (Nat × Nat)) :
    ∀ (acc : List RowPtr × List (RowPtr × Nat)) (pos : Nat × Nat) (q : RowPtr),
      pos ∈ L →
      findFirstRow bset pos.1 pos.2 = some q →
      q.marker = some MarkerKind.False →
      q ∈ (L.foldl (scanStep JoinType.Full bset) acc).1 := by
  induction L with
  | nil => intro acc pos q hmem; exact absurd hmem (List.not_mem_nil pos)
  | cons pos2 rest ih =>
    intro acc pos q hmem hq hm
    rw [List.foldl_cons]
    rcases List.mem_cons.mp hmem with heq | hmem2
    · apply mem_scanFold_mono
      rw [scanStep_fst, ← heq, hq]
      simp [hm]
    · exact ih _ pos q hmem2 hq hm

/-- Helper: in-bounds coordinates occur in the scanned position list. -/
theorem mem_rowPositionsFrom (chunks : List Nat) :
    ∀ (k i ri : Nat), i < chunks.length → ri < chunks.getD i 0 →
      (k + i, ri) ∈ rowPositionsFrom k chunks := by
  induction chunks with
  | nil => intro k i ri h _; exact absurd h (Nat.not_lt_zero i)
  | cons n rest ih =>
    intro k i ri hi hri
    cases i with
    | zero =>
      rw [rowPositionsFrom]
      apply List.mem_append_left
      rw [Nat.add_zero]
      exact List.mem_map.mpr ⟨ri, List.mem_range.mpr hri, rfl⟩
    | succ j =>
      rw [rowPositionsFrom]
      apply List.mem_append_right
      have hres := ih (k + 1) j ri (Nat.lt_of_succ_lt_succ hi) hri
      have harith : k + 1 + j = k + (j + 1) := by omega
      rw [harith] at hres
      exact hres

/-- Helper: bounds give membership in the Row Space position enumeration. -/
theorem mem_rowPositions (chunks : List Nat) (ci ri : Nat)
    (hc : ci < chunks.length) (hr : ri < chunks.getD ci 0) :
    (ci, ri) ∈ rowPositions chunks := by
  have hres := mem_rowPositionsFrom chunks 0 ci ri hc hr
  rw [Nat.zero_add] at hres
  exact hres

/-- C4 counterexample: with a full join, one chunk of one row, and a
matched list recording row `(0,0)` first with marker `True` and most
recently with marker `False`, the finalizer emits nothing: the hash set
collected from the list retains the first-recorded entry, whose marker is
`True`, not the most-recently-recorded `False` one the claim refers to. -/
theorem find_unmatched_full_cex :
    lastRecordedMarker
        [RowPtr.mk 0 0 (some MarkerKind.True), RowPtr.mk 0 0 (some MarkerKind.False)]
        0 0 = some (some MarkerKind.False) ∧
      (0, 0) ∈ rowPositions [1] ∧
      (find_unmatched_build_indexes
        { hash_join_desc :=
            { join_type := JoinType.Full,
              marker_join_desc := { marker_index := none },
              right_join_desc :=
                { build_indexes :=
                    [RowPtr.mk 0 0 (some MarkerKind.True),
                     RowPtr.mk 0 0 (some MarkerKind.False)],
                  row_state := [] } },
          row_space := { chunks := [1] } }).1 = [] := by
  decide

/-- C4 amended: under a full join, for every in-bounds row position whose
first-recorded entry in the matched build-row list (the representative the
derived hash set retains) carries marker `False`, the finalizer emits that
entry in its unmatched output. -/
theorem find_unmatched_full_emits_residual_excluded (tbl : JoinHashTable)
    (ci ri : Nat) (q : RowPtr)
    (hjt : tbl.hash_join_desc.join_type = JoinType.Full)
    (hc : ci < tbl.row_space.chunks.length)
    (hr : ri < tbl.row_space.chunks.getD ci 0)
    (hq : findFirstRow tbl.hash_join_desc.right_join_desc.build_indexes ci ri = some q)
    (hm : q.marker = some MarkerKind.False) :
    q ∈ (find_unmatched_build_indexes tbl).1 ∧
      q.chunk_index = ci ∧ q.row_index = ri := by
  have hpos := mem_rowPositions tbl.row_space.chunks ci ri hc hr
  refine ⟨?_, findFirstRow_coords _ ci ri q hq⟩
  rw [find_unmatched_build_indexes, hjt]
  exact mem_scanFold_of_pos tbl.hash_join_desc.right_join_desc.build_indexes
    (rowPositions tbl.row_space.chunks) _ (ci, ri) q hpos hq hm

/-- C4 witness: a concrete full join with one matched build row whose
retained marker is `False`; the finalizer emits it. -/
theorem find_unmatched_full_emits_residual_excluded_witness :
    RowPtr.mk 0 0 (some MarkerKind.False) ∈
      (find_unmatched_build_indexes
        { hash_join_desc :=
            { join_type := JoinType.Full,
              marker_join_desc := { marker_index := none },
              right_join_desc :=
                { build_indexes := [RowPtr.mk 0 0 (some MarkerKind.False)],
                  row_state := [] } },
          row_space := { chunks := [1] } }).1 := by
  exact (find_unmatched_full_emits_residual_excluded
    { hash_join_desc :=
        { join_type := JoinType.Full,
          marker_join_desc := { marker_index := none },
          right_join_desc :=
            { build_indexes := [RowPtr.mk 0 0 (some MarkerKind.False)],
              row_state := [] } },
      row_space := { chunks := [1] } }
    0 0 (RowPtr.mk 0 0 (some MarkerKind.False))
    rfl (by decide) (by decide) (by decide) rfl).1
